import Mathlib

/-!
Shallow embedding of the message-queue engine of `gorote` (`rabbitmq.go`:
the AMQP connection manager, consumer loop, worker bodies and publisher,
and the SQS polling consumer).  External effects (dial results, handler
results, broker events) are passed in as explicit parameters or event
lists; each Lean definition mirrors one Go function's control flow.
Errors are abstracted as natural numbers.
-/

namespace Gorote

/-- Abstract error value (stands for a Go non-nil `error`). -/
abbrev Err := Nat

/-! ### `Redelivery` (rabbitmq.go lines 42-52)

AMQP header tables map strings to dynamically typed values; the Go code
renders the value with `fmt.Sprintf("%v", count)` and parses it with
`strconv.Atoi`. -/

/-- A header value of the kinds an AMQP table can carry here. -/
inductive HVal
  | int (n : Int)
  | str (s : String)
  | bool (b : Bool)
deriving DecidableEq, Repr

/-- Go `fmt.Sprintf("%v", v)` on the supported header values. -/
def formatV : HVal → String
  | .int n => toString n
  | .str s => s
  | .bool true => "true"
  | .bool false => "false"

/-- Numeric value of a digit run (most significant first). -/
def digitsToNat (l : List Char) : Nat :=
  l.foldl (fun acc c => 10 * acc + (c.toNat - 48)) 0

/-- Largest value of Go's 64-bit `int`. -/
def intMax64 : Int := 2 ^ 63 - 1

/-- Smallest value of Go's 64-bit `int`. -/
def intMin64 : Int := -(2 ^ 63)

/-- Go `strconv.Atoi`: optional sign followed by a nonempty digit run, and
the value must fit Go's 64-bit `int` — out-of-range numerals return
`ErrRange`; any error is `none` here (`Redelivery` only checks
`err != nil`). -/
def atoi? (s : String) : Option Int :=
  match s.data with
  | [] => none
  | '+' :: rest =>
      if rest ≠ [] ∧ rest.all Char.isDigit ∧ (digitsToNat rest : Int) ≤ intMax64 then
        some (digitsToNat rest)
      else none
  | '-' :: rest =>
      if rest ≠ [] ∧ rest.all Char.isDigit ∧ intMin64 ≤ -(digitsToNat rest : Int) then
        some (-(digitsToNat rest : Int))
      else none
  | l =>
      if l.all Char.isDigit ∧ (digitsToNat l : Int) ≤ intMax64 then
        some (digitsToNat l)
      else none

/-- The header key the code reads. -/
def keyDeliveryCount : String := "x-delivery-count"

/-- Go `Redelivery` (rabbitmq.go 42-52): missing header yields 0, a value whose
`%v` rendering fails `Atoi` yields 0, otherwise the parsed integer. -/
def Redelivery (hs : List (String × HVal)) : Int :=
  match hs.lookup keyDeliveryCount with
  | none => 0
  | some v =>
    match atoi? (formatV v) with
    | none => 0
    | some n => n

/-! ### `Reconnect` (rabbitmq.go 128-150)

The loop runs `i = 1..5`; each failed `connect` is followed by a sleep of
`i * 3` seconds; success returns nil immediately; after the fifth failure
the last error is wrapped and returned.  `c i` is attempt `i`'s `connect`
outcome (`none` = success).  `reconnectLoop` is this retry loop on its own;
the full `Reconnect` below additionally models the receiver's mutex, which
line 129 acquires and holds across every `connect` call — and `connect`
itself re-locks the same non-reentrant `r.mu` on line 75. -/

/-- Result of `Reconnect`: success, or exhaustion wrapping the last error. -/
inductive RecRes
  | ok
  | exhausted (last : Err)
deriving DecidableEq, Repr

/-- Observable trace of one `Reconnect` call: number of `connect` attempts,
the sleeps performed (seconds, in order), and the result. -/
structure RecOut where
  attempts : Nat
  delays : List Nat
  result : RecRes
deriving DecidableEq, Repr

/-- The `for i := 1; i <= 5; i++` body of `Reconnect`, with `fuel` attempts
remaining (the current one included) and `i` the current attempt index. -/
def reconnectLoop (c : Nat → Option Err) (i : Nat) : Nat → RecOut
  | 0 => ⟨0, [], .ok⟩
  | f + 1 =>
    match c i with
    | none => ⟨1, [], .ok⟩
    | some e =>
      match f with
      | 0 => ⟨1, [3 * i], .exhausted e⟩
      | f' + 1 =>
        ⟨(reconnectLoop c (i + 1) (f' + 1)).attempts + 1,
         3 * i :: (reconnectLoop c (i + 1) (f' + 1)).delays,
         (reconnectLoop c (i + 1) (f' + 1)).result⟩

theorem reconnectLoop_none (c : Nat → Option Err) (i f : Nat) (hc : c i = none) :
    reconnectLoop c i (f + 1) = ⟨1, [], .ok⟩ := by
  cases f <;> (unfold reconnectLoop; rw [hc])

theorem reconnectLoop_last (c : Nat → Option Err) (i : Nat) (e : Err) (hc : c i = some e) :
    reconnectLoop c i 1 = ⟨1, [3 * i], .exhausted e⟩ := by
  unfold reconnectLoop; rw [hc]

theorem reconnectLoop_cons (c : Nat → Option Err) (i f : Nat) (e : Err) (hc : c i = some e) :
    reconnectLoop c i (f + 2) =
      ⟨(reconnectLoop c (i + 1) (f + 1)).attempts + 1,
       3 * i :: (reconnectLoop c (i + 1) (f + 1)).delays,
       (reconnectLoop c (i + 1) (f + 1)).result⟩ := by
  conv_lhs => unfold reconnectLoop
  rw [hc]

/-- Outcome of a call on a receiver guarded by a non-reentrant
`sync.Mutex`: the call completes with a value, or blocks forever trying to
take a mutex already held by its own caller. -/
inductive LockRes (α : Type)
  | done (a : α)
  | deadlock
deriving DecidableEq, Repr

/-- Go `connect` as invoked with the receiver's mutex state `held`: line 75
`r.mu.Lock()` blocks forever when the caller already holds `r.mu`
(non-reentrant mutex); otherwise the attempt outcome `res` is produced and
the deferred unlock releases the mutex again. -/
def connectLocked : Bool → Option Err → LockRes (Option Err)
  | true, _ => .deadlock
  | false, res => .done res

/-- The `for i := 1; i <= 5; i++` loop of `Reconnect` with the mutex state
`held` under which each `r.connect(ctx)` call runs. -/
def reconnectLoopLocked (held : Bool) (c : Nat → Option Err) (i : Nat) :
    Nat → LockRes RecOut
  | 0 => .done ⟨0, [], .ok⟩
  | f + 1 =>
    match connectLocked held (c i) with
    | .deadlock => .deadlock
    | .done none => .done ⟨1, [], .ok⟩
    | .done (some e) =>
      match f with
      | 0 => .done ⟨1, [3 * i], .exhausted e⟩
      | f' + 1 =>
        match reconnectLoopLocked held c (i + 1) (f' + 1) with
        | .deadlock => .deadlock
        | .done rest =>
          .done ⟨rest.attempts + 1, 3 * i :: rest.delays, rest.result⟩

theorem reconnectLoopLocked_none (c : Nat → Option Err) (i f : Nat)
    (hc : c i = none) :
    reconnectLoopLocked false c i (f + 1) = .done ⟨1, [], .ok⟩ := by
  cases f <;> (unfold reconnectLoopLocked; rw [hc]; rfl)

theorem reconnectLoopLocked_last (c : Nat → Option Err) (i : Nat) (e : Err)
    (hc : c i = some e) :
    reconnectLoopLocked false c i 1 = .done ⟨1, [3 * i], .exhausted e⟩ := by
  unfold reconnectLoopLocked; rw [hc]; rfl

theorem reconnectLoopLocked_cons (c : Nat → Option Err) (i f : Nat) (e : Err)
    (hc : c i = some e) :
    reconnectLoopLocked false c i (f + 2) =
      match reconnectLoopLocked false c (i + 1) (f + 1) with
      | .deadlock => .deadlock
      | .done rest =>
        .done ⟨rest.attempts + 1, 3 * i :: rest.delays, rest.result⟩ := by
  conv_lhs => unfold reconnectLoopLocked
  rw [hc]; rfl

/-- With the mutex free during the `connect` calls, the loop computes
exactly the mutex-free retry semantics `reconnectLoop`. -/
theorem reconnectLoopLocked_free (c : Nat → Option Err) (f : Nat) :
    ∀ i, reconnectLoopLocked false c i f = .done (reconnectLoop c i f) := by
  induction f with
  | zero => intro i; rfl
  | succ f ih =>
    intro i
    cases hc : c i with
    | none =>
      rw [reconnectLoopLocked_none c i f hc, reconnectLoop_none c i f hc]
    | some e =>
      cases f with
      | zero =>
        rw [reconnectLoopLocked_last c i e hc, reconnectLoop_last c i e hc]
      | succ f' =>
        rw [reconnectLoopLocked_cons c i f' e hc, ih (i + 1),
          reconnectLoop_cons c i f' e hc]

/-- Go `Reconnect` (rabbitmq.go 128-150) with the receiver's mutex made
explicit: line 129 `r.mu.Lock()` is held (deferred unlock, line 130) across
the whole call, so every `r.connect(ctx)` on line 140 runs with `r.mu`
already held. -/
def Reconnect (c : Nat → Option Err) : LockRes RecOut :=
  reconnectLoopLocked true c 1 5

theorem reconnectLoop_attempts_le (c : Nat → Option Err) (f : Nat) :
    ∀ i, (reconnectLoop c i f).attempts ≤ f := by
  induction f with
  | zero => intro i; simp [reconnectLoop]
  | succ f ih =>
    intro i
    cases hc : c i with
    | none => simp [reconnectLoop_none c i f hc]
    | some e =>
      cases f with
      | zero => simp [reconnectLoop_last c i e hc]
      | succ f' =>
        rw [reconnectLoop_cons c i f' e hc]
        exact Nat.succ_le_succ (ih (i + 1))

/-- The delays recorded from attempt `i` on with `f` attempts of fuel are an
initial run of `3*i, 3*(i+1), ...`. -/
theorem reconnectLoop_delays (c : Nat → Option Err) (f : Nat) :
    ∀ i, ∃ k, (reconnectLoop c i f).delays = (List.range k).map (fun j => 3 * (i + j)) := by
  induction f with
  | zero => intro i; exact ⟨0, by simp [reconnectLoop]⟩
  | succ f ih =>
    intro i
    cases hc : c i with
    | none => exact ⟨0, by simp [reconnectLoop_none c i f hc]⟩
    | some e =>
      cases f with
      | zero => exact ⟨1, by simp [reconnectLoop_last c i e hc, List.range_succ]⟩
      | succ f' =>
        obtain ⟨k, hk⟩ := ih (i + 1)
        refine ⟨k + 1, ?_⟩
        rw [reconnectLoop_cons c i f' e hc]
        simp only [hk, List.range_succ_eq_map, List.map_cons, List.map_map, List.cons.injEq]
        refine ⟨by simp, List.map_congr_left ?_⟩
        intro j _
        simp only [Function.comp_apply]
        omega

theorem range_map_chain (i k : Nat) :
    List.Chain' (· < ·) ((List.range k).map (fun j => 3 * (i + j))) := by
  apply List.Pairwise.chain'
  rw [List.pairwise_map]
  apply List.Pairwise.imp ?_ (List.pairwise_lt_range k)
  intro a b h
  omega

/-- If every attempt in the window fails, the loop returns exhaustion wrapping
the last attempt's error. -/
theorem reconnectLoop_exhausts (c : Nat → Option Err) (f : Nat) :
    ∀ i, 1 ≤ f → (∀ j, j < f → (c (i + j)).isSome) →
      ∃ e, c (i + f - 1) = some e ∧ (reconnectLoop c i f).result = .exhausted e := by
  induction f with
  | zero => intro i h; omega
  | succ f ih =>
    intro i _ hall
    have h0 : (c i).isSome := by simpa using hall 0 (by omega)
    obtain ⟨e, he⟩ := Option.isSome_iff_exists.mp h0
    cases f with
    | zero => exact ⟨e, by simpa using he, by rw [reconnectLoop_last c i e he]⟩
    | succ f' =>
      obtain ⟨e', he', hres⟩ := ih (i + 1) (by omega) (fun j hj => by
        have := hall (j + 1) (by omega)
        simpa [Nat.add_assoc, Nat.add_comm 1 j] using this)
      refine ⟨e', ?_, ?_⟩
      · have h2 : i + 1 + (f' + 1) - 1 = i + (f' + 1 + 1) - 1 := by omega
        rwa [h2] at he'
      · rw [reconnectLoop_cons c i f' e he]
        exact hres

/-! ### AMQP `ConsumerMessages` (rabbitmq.go 152-205)

The loop is modelled as a state machine driven by an event list.  Entry
(first iteration of the outer `for`) applies QoS once and opens one
subscription; the inner `for`/`select` then reacts to events:

* `cancel`   — `ctx.Done()` fires: `wg.Wait()` then `return` (drain first).
* `deliver`  — a delivery arrives: `sem <- struct{}{}` admits a worker when
  the semaphore (capacity `worker`) has room; at capacity the send blocks,
  so no admission happens.
* `finish`   — an in-flight worker goroutine runs its deferred
  `<-sem; wg.Done()`.
* `closed b` — `d, ok := <-msgs` sees `ok = false`: sleep, call `Reconnect`
  (`b` is its outcome), and then `break`/`continue`.  In Go, `break`
  inside `select` exits only the `select`, so either way control stays in
  the inner `for` with the same `msgs` channel: `qosApplied` and `subs`
  are NOT incremented (this mirrors the source exactly).
-/

inductive AmqpEv
  | cancel
  | deliver
  | finish
  | closed (reconnectOk : Bool)
deriving DecidableEq, Repr

structure AmqpState where
  worker : Nat
  inFlight : Nat
  qosApplied : Nat
  subs : Nat
  reconnects : Nat
  draining : Bool
  returned : Bool
deriving DecidableEq, Repr

/-- State after `Qos` and `ConsumeWithContext` succeeded once (lines 154-161;
a failure of either returns before any worker exists). -/
def amqpInit (worker : Nat) : AmqpState :=
  { worker := worker, inFlight := 0, qosApplied := 1, subs := 1,
    reconnects := 0, draining := false, returned := false }

/-- One reaction of the inner `for`/`select` (lines 166-203).  A returned
loop is frozen; while draining (`wg.Wait()` after `ctx.Done()`) only worker
completions are processed. -/
def amqpStep (s : AmqpState) : AmqpEv → AmqpState
  | .cancel =>
    if s.returned then s
    else if s.draining then s
    else if s.inFlight = 0 then { s with returned := true }
    else { s with draining := true }
  | .deliver =>
    if s.returned then s
    else if s.draining then s
    else if s.inFlight < s.worker then { s with inFlight := s.inFlight + 1 }
    else s
  | .finish =>
    if s.returned then s
    else if s.draining then
      (if s.inFlight ≤ 1 then { s with inFlight := 0, returned := true }
       else { s with inFlight := s.inFlight - 1 })
    else { s with inFlight := s.inFlight - 1 }
  | .closed ok =>
    if s.returned then s
    else if s.draining then s
    else if ok then { s with reconnects := s.reconnects + 1 }
    else s

/-- The consumer loop after processing `evs`; every point of any run is
`amqpRun worker evs` for the event list consumed so far. -/
def amqpRun (worker : Nat) (evs : List AmqpEv) : AmqpState :=
  evs.foldl amqpStep (amqpInit worker)

/-! ### SQS `ConsumerMessages` (rabbitmq.go SQS part, lines 291-344)

Same style of state machine.  `sqsInit` performs the worker-range check
(`worker > 10 || worker <= 0` returns a configuration error before the
semaphore is allocated or any receive happens).  Events of the polling
loop:

* `receiveOk`  — `ReceiveMessage` returned a batch.
* `receiveErr` — `ReceiveMessage` failed: sleep 2s, `return err` with NO
  `wg.Wait()` (mirrors the source: in-flight workers are not joined).
* `acquire`    — one batch message admitted via `case sem <- struct{}{}`
  (only when the semaphore has room).
* `cancel`     — `case <-ctx.Done()` in the admission `select`:
  `wg.Wait()` then return.
* `finish`     — an in-flight worker completes.
-/

inductive SqsEv
  | receiveOk
  | receiveErr
  | acquire
  | cancel
  | finish
deriving DecidableEq, Repr

structure SqsState where
  worker : Nat
  cfgError : Bool
  inFlight : Nat
  receives : Nat
  admits : Nat
  draining : Bool
  returned : Bool
  returnedByRecvErr : Bool
deriving DecidableEq, Repr

/-- Entry of the SQS `ConsumerMessages`: the worker-range guard (line 292). -/
def sqsInit (worker : Nat) : SqsState :=
  if worker > 10 ∨ worker ≤ 0 then
    { worker := worker, cfgError := true, inFlight := 0, receives := 0,
      admits := 0, draining := false, returned := true,
      returnedByRecvErr := false }
  else
    { worker := worker, cfgError := false, inFlight := 0, receives := 0,
      admits := 0, draining := false, returned := false,
      returnedByRecvErr := false }

/-- One reaction of the polling loop (lines 297-343).  A returned loop is
frozen; while draining only worker completions are processed. -/
def sqsStep (s : SqsState) : SqsEv → SqsState
  | .receiveOk =>
    if s.returned then s
    else if s.draining then s
    else { s with receives := s.receives + 1 }
  | .receiveErr =>
    if s.returned then s
    else if s.draining then s
    else { s with receives := s.receives + 1, returned := true,
                  returnedByRecvErr := true }
  | .acquire =>
    if s.returned then s
    else if s.draining then s
    else if s.inFlight < s.worker then
      { s with inFlight := s.inFlight + 1, admits := s.admits + 1 }
    else s
  | .cancel =>
    if s.returned then s
    else if s.draining then s
    else if s.inFlight = 0 then { s with returned := true }
    else { s with draining := true }
  | .finish =>
    if s.returned then s
    else if s.draining then
      (if s.inFlight ≤ 1 then { s with inFlight := 0, returned := true }
       else { s with inFlight := s.inFlight - 1 })
    else { s with inFlight := s.inFlight - 1 }

/-- The SQS loop after processing `evs`. -/
def sqsRun (worker : Nat) (evs : List SqsEv) : SqsState :=
  evs.foldl sqsStep (sqsInit worker)

/-! Invariant machinery for the two loops. -/

theorem amqpStep_worker (s : AmqpState) (e : AmqpEv) :
    (amqpStep s e).worker = s.worker := by
  cases e <;> simp only [amqpStep] <;> split_ifs <;> rfl

theorem amqpStep_inFlight (s : AmqpState) (e : AmqpEv)
    (h : s.inFlight ≤ s.worker) : (amqpStep s e).inFlight ≤ (amqpStep s e).worker := by
  cases e <;> simp only [amqpStep] <;> split_ifs <;> (try simp) <;> omega

theorem amqpRun_inFlight_le (worker : Nat) (evs : List AmqpEv) :
    (amqpRun worker evs).inFlight ≤ (amqpRun worker evs).worker := by
  suffices h : ∀ s : AmqpState, s.inFlight ≤ s.worker →
      (evs.foldl amqpStep s).inFlight ≤ (evs.foldl amqpStep s).worker by
    exact h (amqpInit worker) (by simp [amqpInit])
  induction evs with
  | nil => intro s hs; exact hs
  | cons e rest ih =>
    intro s hs
    exact ih (amqpStep s e) (amqpStep_inFlight s e hs)

theorem amqpRun_worker (worker : Nat) (evs : List AmqpEv) :
    (amqpRun worker evs).worker = worker := by
  suffices h : ∀ s : AmqpState, (evs.foldl amqpStep s).worker = s.worker by
    simpa [amqpInit] using h (amqpInit worker)
  induction evs with
  | nil => intro s; rfl
  | cons e rest ih =>
    intro s
    rw [List.foldl_cons, ih (amqpStep s e), amqpStep_worker]

theorem sqsStep_worker (s : SqsState) (e : SqsEv) :
    (sqsStep s e).worker = s.worker := by
  cases e <;> simp only [sqsStep] <;> split_ifs <;> rfl

theorem sqsStep_cfgError (s : SqsState) (e : SqsEv) :
    (sqsStep s e).cfgError = s.cfgError := by
  cases e <;> simp only [sqsStep] <;> split_ifs <;> rfl

theorem sqsStep_inFlight (s : SqsState) (e : SqsEv)
    (h : s.inFlight ≤ s.worker) :
    (sqsStep s e).inFlight ≤ (sqsStep s e).worker := by
  cases e <;> simp only [sqsStep] <;> split_ifs <;> (try simp) <;> omega

theorem sqsRun_inFlight_le (worker : Nat) (evs : List SqsEv) :
    (sqsRun worker evs).inFlight ≤ (sqsRun worker evs).worker := by
  suffices h : ∀ s : SqsState, s.inFlight ≤ s.worker →
      (evs.foldl sqsStep s).inFlight ≤ (evs.foldl sqsStep s).worker by
    refine h (sqsInit worker) ?_
    unfold sqsInit
    split_ifs <;> simp
  induction evs with
  | nil => intro s hs; exact hs
  | cons e rest ih =>
    intro s hs
    exact ih (sqsStep s e) (sqsStep_inFlight s e hs)

theorem sqsRun_worker (worker : Nat) (evs : List SqsEv) :
    (sqsRun worker evs).worker = worker := by
  suffices h : ∀ s : SqsState, (evs.foldl sqsStep s).worker = s.worker by
    rw [sqsRun, h (sqsInit worker)]
    unfold sqsInit
    split_ifs <;> rfl
  induction evs with
  | nil => intro s; rfl
  | cons e rest ih =>
    intro s
    rw [List.foldl_cons, ih (sqsStep s e), sqsStep_worker]

theorem sqsRun_cfgError (worker : Nat) (evs : List SqsEv) :
    (sqsRun worker evs).cfgError = (sqsInit worker).cfgError := by
  suffices h : ∀ s : SqsState, (evs.foldl sqsStep s).cfgError = s.cfgError by
    exact h (sqsInit worker)
  induction evs with
  | nil => intro s; rfl
  | cons e rest ih =>
    intro s
    rw [List.foldl_cons, ih (sqsStep s e), sqsStep_cfgError]

/-- Fields `qosApplied` and `subs` are never touched after entry: no event of the
inner loop re-applies QoS or opens a new subscription (the `break` on line
180 exits only the `select`). -/
theorem amqpStep_qos_subs (s : AmqpState) (e : AmqpEv) :
    (amqpStep s e).qosApplied = s.qosApplied ∧ (amqpStep s e).subs = s.subs := by
  cases e <;> simp only [amqpStep] <;> split_ifs <;> exact ⟨rfl, rfl⟩

theorem amqpRun_qos_subs (worker : Nat) (evs : List AmqpEv) :
    (amqpRun worker evs).qosApplied = 1 ∧ (amqpRun worker evs).subs = 1 := by
  suffices h : ∀ s : AmqpState,
      (evs.foldl amqpStep s).qosApplied = s.qosApplied ∧
      (evs.foldl amqpStep s).subs = s.subs by
    simpa [amqpRun, amqpInit] using h (amqpInit worker)
  induction evs with
  | nil => intro s; exact ⟨rfl, rfl⟩
  | cons e rest ih =>
    intro s
    obtain ⟨h1, h2⟩ := ih (amqpStep s e)
    obtain ⟨g1, g2⟩ := amqpStep_qos_subs s e
    exact ⟨by rw [List.foldl_cons, h1, g1], by rw [List.foldl_cons, h2, g2]⟩

/-- The AMQP loop returns only with an empty pool. -/
theorem amqpStep_ret (s : AmqpState) (e : AmqpEv)
    (h : s.returned = true → s.inFlight = 0) :
    (amqpStep s e).returned = true → (amqpStep s e).inFlight = 0 := by
  cases e <;> simp only [amqpStep] <;> split_ifs <;> simp_all

theorem amqpRun_ret (worker : Nat) (evs : List AmqpEv) :
    (amqpRun worker evs).returned = true → (amqpRun worker evs).inFlight = 0 := by
  suffices h : ∀ s : AmqpState, (s.returned = true → s.inFlight = 0) →
      ((evs.foldl amqpStep s).returned = true → (evs.foldl amqpStep s).inFlight = 0) by
    exact h (amqpInit worker) (by simp [amqpInit])
  induction evs with
  | nil => intro s hs; exact hs
  | cons e rest ih =>
    intro s hs
    exact ih (amqpStep s e) (amqpStep_ret s e hs)

/-- The SQS loop returns with a nonempty pool only through the
receive-error path. -/
theorem sqsStep_ret (s : SqsState) (e : SqsEv)
    (h : s.returned = true → s.returnedByRecvErr = true ∨ s.inFlight = 0) :
    (sqsStep s e).returned = true →
      (sqsStep s e).returnedByRecvErr = true ∨ (sqsStep s e).inFlight = 0 := by
  cases e <;> simp only [sqsStep] <;> split_ifs <;> simp_all

theorem sqsRun_ret (worker : Nat) (evs : List SqsEv) :
    (sqsRun worker evs).returned = true →
      (sqsRun worker evs).returnedByRecvErr = true ∨ (sqsRun worker evs).inFlight = 0 := by
  suffices h : ∀ s : SqsState,
      (s.returned = true → s.returnedByRecvErr = true ∨ s.inFlight = 0) →
      ((evs.foldl sqsStep s).returned = true →
        (evs.foldl sqsStep s).returnedByRecvErr = true ∨ (evs.foldl sqsStep s).inFlight = 0) by
    refine h (sqsInit worker) ?_
    unfold sqsInit
    split_ifs <;> simp
  induction evs with
  | nil => intro s hs; exact hs
  | cons e rest ih =>
    intro s hs
    exact ih (sqsStep s e) (sqsStep_ret s e hs)

/-- A returned SQS loop is frozen. -/
theorem sqsStep_frozen (s : SqsState) (e : SqsEv) (h : s.returned = true) :
    sqsStep s e = s := by
  cases e <;> simp [sqsStep, h]

theorem sqsRun_out_of_range (worker : Nat) (evs : List SqsEv)
    (h : worker > 10 ∨ worker ≤ 0) : sqsRun worker evs = sqsInit worker := by
  have hinit : (sqsInit worker).returned = true := by
    rw [sqsInit, if_pos h]
  unfold sqsRun
  induction evs with
  | nil => rfl
  | cons e rest ih =>
    rw [List.foldl_cons, sqsStep_frozen (sqsInit worker) e hinit]
    exact ih

/-- Without a cancellation event the AMQP loop neither drains nor returns. -/
theorem amqpStep_no_cancel (s : AmqpState) (e : AmqpEv) (hne : e ≠ .cancel)
    (h : s.returned = false ∧ s.draining = false) :
    (amqpStep s e).returned = false ∧ (amqpStep s e).draining = false := by
  cases e <;> simp only [amqpStep] <;> split_ifs <;> simp_all

theorem amqpRun_no_cancel (worker : Nat) (evs : List AmqpEv)
    (h : ∀ e ∈ evs, e ≠ .cancel) :
    (amqpRun worker evs).returned = false ∧ (amqpRun worker evs).draining = false := by
  suffices hg : ∀ (l : List AmqpEv), (∀ e ∈ l, e ≠ .cancel) →
      ∀ s : AmqpState, (s.returned = false ∧ s.draining = false) →
      ((l.foldl amqpStep s).returned = false ∧ (l.foldl amqpStep s).draining = false) by
    exact hg evs h (amqpInit worker) (by simp [amqpInit])
  intro l
  induction l with
  | nil => intro _ s hs; exact hs
  | cons e rest ih =>
    intro hl s hs
    rw [List.foldl_cons]
    exact ih (fun x hx => hl x (List.mem_cons_of_mem e hx)) (amqpStep s e)
      (amqpStep_no_cancel s e (hl e (List.mem_cons_self e rest)) hs)

/-! ### Worker bodies (rabbitmq.go 185-201 AMQP, 315-340 SQS)

`invokeChain rs` is the `for _, errHandler := range errHandlers` loop with
`rs` the handlers' return values in supplied order: each handler is invoked
and the loop stops right after the first one that returns non-nil. -/

/-- Results, in order, of the error handlers actually invoked. -/
def invokeChain : List (Option Err) → List (Option Err)
  | [] => []
  | none :: rest => none :: invokeChain rest
  | some e :: _ => [some e]

/-- Broker calls an AMQP worker performs, in order.  `ack`/`nack` carry the
Go arguments (`multiple`, and for nack `requeue`); `errh` is one
error-handler invocation carrying its result. -/
inductive WAct
  | ack (multiple : Bool)
  | nack (multiple requeue : Bool)
  | errh (res : Option Err)
deriving DecidableEq, Repr

/-- The AMQP worker goroutine body (lines 191-200): `h` is the handler's
return, `rs` the error handlers' returns.  nil → `msg.Ack(false)`;
non-nil → `msg.Nack(false, true)` then the error-handler chain. -/
def amqpWorker (h : Option Err) (rs : List (Option Err)) : List WAct :=
  match h with
  | none => [WAct.ack false]
  | some _ => WAct.nack false true :: (invokeChain rs).map WAct.errh

/-- Calls an SQS worker performs: a `DeleteMessage` attempt or an
error-handler invocation.  There is no nack-style call at all. -/
inductive SAct
  | delete
  | errh (res : Option Err)
deriving DecidableEq, Repr

def SAct.isErrh : SAct → Bool
  | .errh _ => true
  | _ => false

/-- The SQS worker goroutine body (lines 315-340): handler failure → the
error-handler chain (no delete); handler success → one `DeleteMessage`,
and if the delete itself fails, the error-handler chain. -/
def sqsWorker (h : Option Err) (delErr : Option Err) (rs : List (Option Err)) :
    List SAct :=
  match h with
  | some _ => (invokeChain rs).map SAct.errh
  | none =>
    SAct.delete ::
      (match delErr with
       | none => []
       | some _ => (invokeChain rs).map SAct.errh)

/-- The invoked error handlers are an initial segment of the supplied
chain (hence invoked in supplied order). -/
theorem invokeChain_take (rs : List (Option Err)) :
    invokeChain rs = rs.take (invokeChain rs).length := by
  induction rs with
  | nil => rfl
  | cons r rest ih =>
    cases r with
    | none => simpa [invokeChain] using ih
    | some e => simp [invokeChain]

/-- Every invoked handler except the last returned nil: the chain stops at
the first failing handler. -/
theorem invokeChain_stop (rs : List (Option Err)) :
    ∀ x ∈ (invokeChain rs).dropLast, x = none := by
  induction rs with
  | nil => simp [invokeChain]
  | cons r rest ih =>
    cases r with
    | some e => simp [invokeChain]
    | none =>
      intro x hx
      simp only [invokeChain] at hx
      cases hl : invokeChain rest with
      | nil => rw [hl] at hx; simp at hx
      | cons y ys =>
        rw [hl, List.dropLast_cons₂] at hx
        rcases List.mem_cons.mp hx with h | h
        · exact h
        · exact ih x (by rw [hl]; exact h)

/-- If every handler succeeds, all of them are invoked. -/
theorem invokeChain_all_ok (rs : List (Option Err)) (h : ∀ x ∈ rs, x = none) :
    invokeChain rs = rs := by
  induction rs with
  | nil => rfl
  | cons r rest ih =>
    have hr : r = none := h r (List.mem_cons_self r rest)
    subst hr
    rw [invokeChain, ih (fun x hx => h x (List.mem_cons_of_mem none hx))]

/-- If some handler fails, exactly the handlers up to and including the
first failure are invoked. -/
theorem invokeChain_first_failure (as bs : List (Option Err)) (e : Err)
    (h : ∀ x ∈ as, x = none) :
    invokeChain (as ++ some e :: bs) = as ++ [some e] := by
  induction as with
  | nil => simp [invokeChain]
  | cons a rest ih =>
    have ha : a = none := h a (List.mem_cons_self a rest)
    subst ha
    rw [List.cons_append]
    show none :: invokeChain (rest ++ some e :: bs) = none :: rest ++ [some e]
    rw [ih (fun x hx => h x (List.mem_cons_of_mem none hx))]
    simp

/-! ### `PublishStruct` (rabbitmq.go 207-241)

Parameters are the outcomes of the effectful calls in program order:
`marshal` = `json.Marshal`, `send1` = first `PublishWithContext`,
`reconn` = `Reconnect` (consulted only when the first send failed),
`send2` = the retried `PublishWithContext` (consulted only after a
successful reconnect). -/

/-- How `PublishStruct` finished. -/
inductive PubResult
  | ok
  | marshalErr (e : Err)
  | publishErr (e : Err)
deriving DecidableEq, Repr

/-- Observable trace of one `PublishStruct` call. -/
structure PubOut where
  sends : Nat
  reconnects : Nat
  result : PubResult
deriving DecidableEq, Repr

/-- Go `PublishStruct` (rabbitmq.go 207-241). -/
def PublishStruct (marshal send1 reconn send2 : Option Err) : PubOut :=
  match marshal with
  | some e => ⟨0, 0, .marshalErr e⟩
  | none =>
    match send1 with
    | none => ⟨1, 0, .ok⟩
    | some e1 =>
      match reconn with
      | none =>
        match send2 with
        | none => ⟨2, 1, .ok⟩
        | some e2 => ⟨2, 1, .publishErr e2⟩
      | some _ => ⟨1, 1, .publishErr e1⟩

/-! ### `connect` and `Connect` (rabbitmq.go 54-114)

`connect` races `amqp.Dial` (running in a goroutine that closes `done`)
against `ctx.Done()` in a `select`.  Time is made explicit: `dialTime` is
when the dial finishes, `deadline` is when the caller's context fires
(`none` = never).  The code contains no deadline of its own.  If the
context fires strictly first, the select takes `<-ctx.Done()` and returns
a cancellation error; the dialed connection, if the dial later succeeds,
is never assigned.  Otherwise the dial's outcome decides.  On a dial
success, `conn.Channel()` (`chanRes`) is opened: failure closes the fresh
connection and returns, leaving `Connection`/`Channel` untouched. -/

/-- Mutable fields of `ConnRabbitMQ` relevant to `connect` (handles are
abstract tokens). -/
structure MQState where
  connection : Option Nat
  channel : Option Nat
deriving DecidableEq, Repr

/-- Cleanup calls `connect` performs. -/
inductive CAct
  | closeConn (h : Nat)
deriving DecidableEq, Repr

/-- Errors of `connect`, tagged by source. -/
inductive CErr
  | canceled
  | dial (e : Err)
  | channelOpen (e : Err)
deriving DecidableEq, Repr

/-- Outcome of one `connect` call. -/
structure ConnectOut where
  st : MQState
  acts : List CAct
  err : Option CErr
deriving DecidableEq, Repr

/-- The body of `connect` after the select resolved in favour of the dial:
lines 91-113.  `conn` is the fresh transport handle, `chanRes` the
`conn.Channel()` outcome (`.ok ch` = fresh channel handle). -/
def connectAfterDial (st : MQState) (dialRes : Except Err Nat)
    (chanRes : Nat → Except Err Nat) : ConnectOut :=
  match dialRes with
  | .error e => ⟨st, [], some (.dial e)⟩
  | .ok conn =>
    match chanRes conn with
    | .error e => ⟨st, [CAct.closeConn conn], some (.channelOpen e)⟩
    | .ok ch => ⟨{ connection := some conn, channel := some ch }, [], none⟩

/-- Go `connect` (rabbitmq.go 74-114) with explicit time for the select on
lines 87-94: `deadline` strictly before `dialTime` means `<-ctx.Done()` is
the only ready case. -/
def connectGo (st : MQState) (dialTime : Nat) (deadline : Option Nat)
    (dialRes : Except Err Nat) (chanRes : Nat → Except Err Nat) : ConnectOut :=
  match deadline with
  | some d =>
    if d < dialTime then ⟨st, [], some .canceled⟩
    else connectAfterDial st dialRes chanRes
  | none => connectAfterDial st dialRes chanRes

/-- Go `Connect` (rabbitmq.go 54-72): fresh `ConnRabbitMQ` (nil handles), then
`connect`; a `connect` error yields `(nil, err)`. -/
def ConnectGo (dialTime : Nat) (deadline : Option Nat)
    (dialRes : Except Err Nat) (chanRes : Nat → Except Err Nat) :
    Option MQState × Option CErr :=
  let r := connectGo ⟨none, none⟩ dialTime deadline dialRes chanRes
  match r.err with
  | some e => (none, some e)
  | none => (some r.st, none)

/-! ## Claim theorems -/

/-- C1 (code defect): `Reconnect` acquires `r.mu` on line 129 and, still
holding it, calls `connect` on line 140, which re-locks the same
non-reentrant mutex on line 75 — so every call deadlocks inside attempt 1,
for any pattern of would-be connect outcomes: it never sleeps, never
retries, and never returns the exhaustion error.  The retry loop as
written (mutex free) would satisfy the claimed bound: at most 5 attempts
separated by strictly increasing delays. -/
theorem reconnect_self_deadlock (c : Nat → Option Err) :
    Reconnect c = .deadlock ∧
    reconnectLoopLocked false c 1 5 = .done (reconnectLoop c 1 5) ∧
    (reconnectLoop c 1 5).attempts ≤ 5 ∧
    List.Chain' (· < ·) (reconnectLoop c 1 5).delays := by
  refine ⟨rfl, reconnectLoopLocked_free c 5 1, reconnectLoop_attempts_le c 5 1, ?_⟩
  obtain ⟨k, hk⟩ := reconnectLoop_delays c 5 1
  rw [hk]
  exact range_map_chain 1 k

/-- C2: for every worker capacity N ≥ 1, neither the AMQP loop nor the SQS
loop ever has more than N handler invocations in flight; every point of any
run is `amqpRun`/`sqsRun` applied to the events consumed so far. -/
theorem consumer_workers_bounded (N : Nat) (hN : 1 ≤ N)
    (evs : List AmqpEv) (sevs : List SqsEv) :
    (amqpRun N evs).inFlight ≤ N ∧ (sqsRun N sevs).inFlight ≤ N := by
  refine ⟨?_, ?_⟩
  · have h := amqpRun_inFlight_le N evs
    rwa [amqpRun_worker] at h
  · have h := sqsRun_inFlight_le N sevs
    rwa [sqsRun_worker] at h

theorem consumer_workers_bounded_witness :
    1 ≤ 2 ∧
    (amqpRun 2 [AmqpEv.deliver, AmqpEv.deliver, AmqpEv.deliver]).inFlight ≤ 2 ∧
    (sqsRun 2 [SqsEv.receiveOk, SqsEv.acquire, SqsEv.acquire, SqsEv.acquire]).inFlight ≤ 2 :=
  ⟨by decide,
   (consumer_workers_bounded 2 (by decide) [AmqpEv.deliver, AmqpEv.deliver, AmqpEv.deliver] []).1,
   (consumer_workers_bounded 2 (by decide) []
     [SqsEv.receiveOk, SqsEv.acquire, SqsEv.acquire, SqsEv.acquire]).2⟩

/-- C4 (code defect): after the stream closes and `Reconnect` succeeds, the
loop does NOT re-apply QoS and does NOT open a new subscription — on any
event list `qosApplied` and `subs` stay at their entry value 1, while
successful reconnects accumulate (the Go `break` on line 180 exits only the
`select`, so the stale closed stream keeps being read); the loop still
never returns from a closure alone. -/
theorem amqp_no_resubscribe_after_reconnect (evs : List AmqpEv) :
    ((amqpRun 3 evs).qosApplied = 1 ∧ (amqpRun 3 evs).subs = 1) ∧
    (amqpRun 3 [AmqpEv.closed true]).reconnects = 1 ∧
    (amqpRun 3 [AmqpEv.closed true, AmqpEv.closed true]).reconnects = 2 ∧
    (amqpRun 3 [AmqpEv.closed true, AmqpEv.closed true]).returned = false :=
  ⟨amqpRun_qos_subs 3 evs, by decide, by decide, by decide⟩

/-- C5 counterexample: the SQS loop admits one worker and then a receive
failure makes `ConsumerMessages` return while that worker is still in
flight — the path on lines 303-306 returns without `wg.Wait()`. -/
theorem sqs_receive_error_abandons_workers :
    (sqsRun 2 [SqsEv.receiveOk, SqsEv.acquire, SqsEv.receiveErr]).returned = true ∧
    (sqsRun 2 [SqsEv.receiveOk, SqsEv.acquire, SqsEv.receiveErr]).inFlight ≠ 0 := by
  decide

/-- C5 (amended): the AMQP loop returns only after every in-flight worker
has finished; the SQS loop joins the pool when cancellation is observed at
the admission select, but its receive-error return path (which a context
cancelled during the long poll also triggers) returns without joining. -/
theorem cancel_drains_workers (w : Nat) (evs : List AmqpEv) (sevs : List SqsEv) :
    ((amqpRun w evs).returned = true → (amqpRun w evs).inFlight = 0) ∧
    ((sqsRun w sevs).returned = true → (sqsRun w sevs).returnedByRecvErr = false →
      (sqsRun w sevs).inFlight = 0) := by
  refine ⟨amqpRun_ret w evs, ?_⟩
  intro h1 h2
  rcases sqsRun_ret w sevs h1 with h | h
  · rw [h2] at h
    exact absurd h (by simp)
  · exact h

theorem cancel_drains_workers_witness :
    (amqpRun 1 [AmqpEv.deliver, AmqpEv.cancel, AmqpEv.finish]).returned = true ∧
    (amqpRun 1 [AmqpEv.deliver, AmqpEv.cancel, AmqpEv.finish]).inFlight = 0 ∧
    (sqsRun 1 [SqsEv.receiveOk, SqsEv.acquire, SqsEv.cancel, SqsEv.finish]).inFlight = 0 :=
  ⟨by decide,
   (cancel_drains_workers 1 [AmqpEv.deliver, AmqpEv.cancel, AmqpEv.finish] []).1 (by decide),
   (cancel_drains_workers 1 []
     [SqsEv.receiveOk, SqsEv.acquire, SqsEv.cancel, SqsEv.finish]).2 (by decide) (by decide)⟩

/-- C8: `Redelivery` is 0 when the `x-delivery-count` header is absent, the
parsed integer when the header's `%v` rendering parses, and 0 when it does
not. -/
theorem redelivery_header_parsing (hs : List (String × HVal)) :
    (hs.lookup keyDeliveryCount = none → Redelivery hs = 0) ∧
    (∀ v n, hs.lookup keyDeliveryCount = some v → atoi? (formatV v) = some n →
      Redelivery hs = n) ∧
    (∀ v, hs.lookup keyDeliveryCount = some v → atoi? (formatV v) = none →
      Redelivery hs = 0) := by
  refine ⟨?_, ?_, ?_⟩
  · intro h; simp [Redelivery, h]
  · intro v n h1 h2; simp [Redelivery, h1, h2]
  · intro v h1 h2; simp [Redelivery, h1, h2]

/-- The header value "3". -/
def sThree : String := "3"

/-- A non-numeric header value. -/
def sAbc : String := "abc"

theorem redelivery_header_parsing_witness :
    Redelivery [] = 0 ∧
    Redelivery [(keyDeliveryCount, HVal.str sThree)] = 3 ∧
    Redelivery [(keyDeliveryCount, HVal.str sAbc)] = 0 :=
  ⟨(redelivery_header_parsing []).1 rfl,
   (redelivery_header_parsing [(keyDeliveryCount, HVal.str sThree)]).2.1
     (HVal.str sThree) 3 (by decide) (by decide),
   (redelivery_header_parsing [(keyDeliveryCount, HVal.str sAbc)]).2.2
     (HVal.str sAbc) (by decide) (by decide)⟩

/-- C9: a worker count outside 1..10 makes the SQS `ConsumerMessages`
return the configuration error at entry — the run equals the entry state,
with no receive and no admission ever — while an in-range count enters the
polling loop with no configuration error. -/
theorem sqs_worker_range_guard (w : Nat) (evs : List SqsEv) :
    ((w > 10 ∨ w ≤ 0) →
      sqsRun w evs = sqsInit w ∧ (sqsInit w).cfgError = true ∧
      (sqsInit w).receives = 0 ∧ (sqsInit w).admits = 0 ∧
      (sqsInit w).returned = true) ∧
    (1 ≤ w → w ≤ 10 →
      (sqsRun w evs).cfgError = false ∧ (sqsInit w).returned = false) := by
  constructor
  · intro h
    refine ⟨sqsRun_out_of_range w evs h, ?_, ?_, ?_, ?_⟩ <;> rw [sqsInit, if_pos h]
  · intro h1 h2
    have hnot : ¬(w > 10 ∨ w ≤ 0) := by omega
    constructor
    · rw [sqsRun_cfgError, sqsInit, if_neg hnot]
    · rw [sqsInit, if_neg hnot]

theorem sqs_worker_range_guard_witness :
    (sqsRun 11 [SqsEv.receiveOk]).cfgError = true ∧
    (sqsRun 11 [SqsEv.receiveOk]).receives = 0 ∧
    (sqsRun 5 [SqsEv.receiveOk]).cfgError = false := by
  have h11 := (sqs_worker_range_guard 11 [SqsEv.receiveOk]).1 (by decide)
  have h5 := (sqs_worker_range_guard 5 [SqsEv.receiveOk]).2 (by decide) (by decide)
  refine ⟨?_, ?_, h5.1⟩
  · rw [h11.1]; exact h11.2.1
  · rw [h11.1]; exact h11.2.2.1

/-- C3 counterexample: in the SQS worker, a handler that returns nil whose
`DeleteMessage` then fails still invokes the error-handler chain, so "if
the handler returns nil ... no error-handler runs" is false for the SQS
loop. -/
theorem sqs_success_errh_cex :
    ¬((sqsWorker none (some 0) [none]).filter SAct.isErrh = []) := by
  decide

/-- C3 (amended): handler nil → AMQP acks exactly once (`Ack(false)`) with
no error handler; SQS deletes exactly once, and additionally runs the
error-handler chain when the delete itself fails.  Handler non-nil → AMQP
nacks once with requeue enabled then runs the chain; SQS performs no
delete (and has no nack call at all) and runs the chain.  The chain is
always the supplied handlers in order up to and including the first that
fails. -/
theorem worker_ack_policy (e de : Err) (dr : Option Err) (rs : List (Option Err)) :
    amqpWorker none rs = [WAct.ack false] ∧
    amqpWorker (some e) rs = WAct.nack false true :: (invokeChain rs).map WAct.errh ∧
    sqsWorker none none rs = [SAct.delete] ∧
    sqsWorker none (some de) rs = SAct.delete :: (invokeChain rs).map SAct.errh ∧
    sqsWorker (some e) dr rs = (invokeChain rs).map SAct.errh ∧
    SAct.delete ∉ sqsWorker (some e) dr rs ∧
    invokeChain rs = rs.take (invokeChain rs).length ∧
    (∀ x ∈ (invokeChain rs).dropLast, x = none) ∧
    ((∀ x ∈ rs, x = none) → invokeChain rs = rs) ∧
    (∀ as bs, (∀ x ∈ as, x = none) → rs = as ++ some e :: bs →
      invokeChain rs = as ++ [some e]) := by
  refine ⟨rfl, rfl, rfl, rfl, rfl, ?_, invokeChain_take rs, invokeChain_stop rs,
    invokeChain_all_ok rs, ?_⟩
  · simp [sqsWorker]
  · intro as bs hall hrs
    rw [hrs]
    exact invokeChain_first_failure as bs e hall

theorem worker_ack_policy_witness :
    amqpWorker (some 5) [none, some 5, none] =
      [WAct.nack false true, WAct.errh none, WAct.errh (some 5)] ∧
    invokeChain [none, some 5, none] = [none] ++ [some 5] := by
  have h := worker_ack_policy 5 0 none [none, some 5, none]
  constructor
  · rw [h.2.1]
    decide
  · exact h.2.2.2.2.2.2.2.2.2 [none] [none] (by decide) rfl

/-- C6: a failed first send triggers exactly one reconnect; after a
successful reconnect the send is retried exactly once and the retry's
failure is what the caller sees; after a failed reconnect the original
send error is returned; and no execution sends more than twice or
reconnects more than once. -/
theorem publish_single_retry (m s1 rc s2 : Option Err) :
    (PublishStruct m s1 rc s2).sends ≤ 2 ∧
    (PublishStruct m s1 rc s2).reconnects ≤ 1 ∧
    (∀ e1, m = none → s1 = some e1 →
      (PublishStruct m s1 rc s2).reconnects = 1 ∧
      (rc = none →
        (PublishStruct m s1 rc s2).sends = 2 ∧
        (s2 = none → (PublishStruct m s1 rc s2).result = .ok) ∧
        (∀ e2, s2 = some e2 → (PublishStruct m s1 rc s2).result = .publishErr e2)) ∧
      (∀ er, rc = some er →
        (PublishStruct m s1 rc s2).sends = 1 ∧
        (PublishStruct m s1 rc s2).result = .publishErr e1)) := by
  rcases m with _ | em <;> rcases s1 with _ | e1' <;> rcases rc with _ | er' <;>
    rcases s2 with _ | e2' <;> simp [PublishStruct]

theorem publish_single_retry_witness :
    (PublishStruct none (some 1) none (some 2)).reconnects = 1 ∧
    (PublishStruct none (some 1) none (some 2)).sends = 2 ∧
    (PublishStruct none (some 1) none (some 2)).result = PubResult.publishErr 2 := by
  have h := (publish_single_retry none (some 1) none (some 2)).2.2 1 rfl rfl
  exact ⟨h.1, (h.2.1 rfl).1, (h.2.1 rfl).2.2 2 rfl⟩

/-- C7 counterexample: with a caller context carrying no deadline, a dial
that takes 11 seconds — past the claimed 10-second connection timeout — is
still used: `connect` returns success with the late connection assigned,
not a timeout error. -/
theorem connect_no_fixed_timeout_cex :
    connectGo ⟨none, none⟩ 11 none (Except.ok 42) (fun c => Except.ok (c + 1)) =
      ⟨⟨some 42, some 43⟩, [], none⟩ := by
  decide

/-- C7 (amended): `connect` enforces no timeout of its own; the only
cutoff is the caller's context: when the context fires strictly before
the dial completes, a specific cancellation error is returned and the
late dial's connection is never assigned (state unchanged); otherwise the
dial outcome is used, however long the dial took. -/
theorem connect_context_cutoff (st : MQState) (t d : Nat) (r : Except Err Nat)
    (ch : Nat → Except Err Nat) :
    (d < t → connectGo st t (some d) r ch = ⟨st, [], some CErr.canceled⟩) ∧
    (t ≤ d → connectGo st t (some d) r ch = connectAfterDial st r ch) ∧
    connectGo st t none r ch = connectAfterDial st r ch := by
  refine ⟨?_, ?_, rfl⟩
  · intro h
    simp [connectGo, h]
  · intro h
    simp [connectGo, Nat.not_lt.mpr h]

theorem connect_context_cutoff_witness :
    connectGo ⟨none, none⟩ 11 (some 10) (Except.ok 42) (fun c => Except.ok (c + 1)) =
      ⟨⟨none, none⟩, [], some CErr.canceled⟩ :=
  (connect_context_cutoff ⟨none, none⟩ 11 10 (Except.ok 42)
    (fun c => Except.ok (c + 1))).1 (by decide)

/-- C10: when the dial succeeds but `conn.Channel()` fails, `connect`
closes the fresh transport connection before returning the error and
leaves the `Connection`/`Channel` fields unchanged; `Connect` then returns
no value together with the error, never a partially initialized one. -/
theorem connect_channel_failure_cleanup (st : MQState) (t : Nat) (d : Option Nat)
    (conn : Nat) (e : Err) (ch : Nat → Except Err Nat)
    (hch : ch conn = Except.error e)
    (hd : ∀ x, d = some x → t ≤ x) :
    connectGo st t d (Except.ok conn) ch =
      ⟨st, [CAct.closeConn conn], some (CErr.channelOpen e)⟩ ∧
    ConnectGo t d (Except.ok conn) ch = (none, some (CErr.channelOpen e)) := by
  have hdial : ∀ st' : MQState, connectGo st' t d (Except.ok conn) ch =
      connectAfterDial st' (Except.ok conn) ch := by
    intro st'
    cases d with
    | none => rfl
    | some x =>
      have := hd x rfl
      simp [connectGo, Nat.not_lt.mpr this]
  have hafter : ∀ st' : MQState, connectAfterDial st' (Except.ok conn) ch =
      ⟨st', [CAct.closeConn conn], some (CErr.channelOpen e)⟩ := by
    intro st'
    simp [connectAfterDial, hch]
  constructor
  · rw [hdial st, hafter st]
  · rw [ConnectGo]
    simp only [hdial ⟨none, none⟩, hafter ⟨none, none⟩]

theorem connect_channel_failure_cleanup_witness :
    connectGo ⟨some 1, some 2⟩ 0 none (Except.ok 7) (fun _ => Except.error 3) =
      ⟨⟨some 1, some 2⟩, [CAct.closeConn 7], some (CErr.channelOpen 3)⟩ ∧
    ConnectGo 0 none (Except.ok 7) (fun _ => Except.error 3) =
      (none, some (CErr.channelOpen 3)) :=
  connect_channel_failure_cleanup ⟨some 1, some 2⟩ 0 none 7 3
    (fun _ => Except.error 3) rfl (fun x hx => Option.noConfusion hx)

end Gorote
